import Mathlib

/-!
Verification of the Topic Search Aggregator
(`src/fetcher/arxiv_search.py` and `config/config.py`).

The aggregator `ArxivClient.search_papers` is embedded shallowly:

* timestamps are modelled as `Int` (only comparisons are performed on them);
* the collaborator (the `arxiv` library client) is modelled as a function
  from a topic string to the list of items its lazy result generator would
  yield for that topic, where each item is either a raw result or a raised
  error (`Except ε RawResult`);
* `datetime.now` is factored out: the cutoff computed at the start of the
  call is a parameter of the embedded function;
* Python's `dict` preserves insertion order, so the dedup mapping
  `all_papers` is modelled as an insertion-ordered association list;
* Python string operations (`split`, `replace`) are given as structural
  recursions over `List Char` with the same semantics, so that all
  definitions evaluate inside the kernel.
-/

deriving instance DecidableEq for Except

/-- A raw search result as exposed by the collaborator: `entry_id`, `title`,
`authors` (already stringified), `summary`, `pdf_url`, `published` (instant,
modelled as `Int`), `categories`. -/
structure RawResult where
  entry_id : String
  title : String
  authors : List String
  summary : String
  pdf_url : String
  published : Int
  categories : List String
deriving Repr, DecidableEq

/-- The frozen `ArxivPaper` dataclass of `src/fetcher/arxiv_search.py`. -/
structure ArxivPaper where
  arxiv_id : String
  title : String
  authors : List String
  abstract : String
  pdf_url : String
  published : Int
  categories : List String
deriving Repr, DecidableEq

/-- Python `str.split(sep)` for a one-character separator, on char lists:
`splitChar c [] = [[]]`, and occurrences of `c` delimit the fields. -/
def splitChar (c : Char) : List Char → List (List Char)
  | [] => [[]]
  | x :: xs =>
    let r := splitChar c xs
    if x = c then [] :: r
    else (x :: r.headD []) :: r.tail

/-- Python `.replace("abs/", "")`: delete every (left-to-right,
non-overlapping) occurrence of the four-character pattern `abs/`. -/
def removeAbsMarker : List Char → List Char
  | 'a' :: 'b' :: 's' :: '/' :: rest => removeAbsMarker rest
  | x :: xs => x :: removeAbsMarker xs
  | [] => []

/-- `result.entry_id.split("/")[-1].replace("abs/", "").split("v")[0]`
(line 103 of `arxiv_search.py`): last path segment, `abs/` occurrences
removed, truncated before the first `v`. -/
def extract_arxiv_id (entry_id : String) : String :=
  let lastSeg := (splitChar '/' entry_id.toList).getLastD []
  let cleaned := removeAbsMarker lastSeg
  String.mk ((splitChar 'v' cleaned).headD [])

/-- Python `.replace("\n", " ")`: every newline becomes a single space. -/
def normalizeSummary (s : String) : String :=
  String.mk (s.toList.map (fun c => if c = '\n' then ' ' else c))

/-- The `ArxivPaper(...)` construction on lines 110-118 of
`arxiv_search.py`, applied to a raw result. -/
def mkArxivPaper (r : RawResult) : ArxivPaper :=
  { arxiv_id := extract_arxiv_id r.entry_id
    title := r.title
    authors := r.authors
    abstract := normalizeSummary r.summary
    pdf_url := r.pdf_url
    published := r.published
    categories := r.categories }

/-- The dedup mapping `all_papers : dict[str, ArxivPaper]`, as an
insertion-ordered association list. -/
abbrev PaperMap := List (String × ArxivPaper)

/-- `arxiv_id in all_papers`. -/
def hasKey (m : PaperMap) (k : String) : Bool :=
  m.any (fun kv => kv.1 == k)

/-- One iteration of the loop body past the cutoff test: skip if the
identifier is already present, otherwise store the new paper. -/
def insertResult (m : PaperMap) (r : RawResult) : PaperMap :=
  let aid := extract_arxiv_id r.entry_id
  if hasKey m aid then m else m ++ [(aid, mkArxivPaper r)]

/-- The `for result in self._client.results(search)` loop for one topic:
an error raised by the generator propagates; a result older than the
cutoff breaks out of the loop; otherwise the result is deduplicated and
stored. -/
def processStream {ε : Type} (cutoff : Int) :
    List (Except ε RawResult) → PaperMap → Except ε PaperMap
  | [], m => Except.ok m
  | Except.error e :: _, _ => Except.error e
  | Except.ok r :: rest, m =>
    if r.published < cutoff then Except.ok m
    else processStream cutoff rest (insertResult m r)

/-- The outer `for topic in topics` loop threading the dedup mapping. -/
def processTopics {ε : Type} (cutoff : Int)
    (streams : String → List (Except ε RawResult)) :
    List String → PaperMap → Except ε PaperMap
  | [], m => Except.ok m
  | t :: ts, m =>
    match processStream cutoff (streams t) m with
    | Except.error e => Except.error e
    | Except.ok m' => processTopics cutoff streams ts m'

/-- The comparison realizing `sorted(..., key=lambda p: p.published,
reverse=True)`: `a` may precede `b` when `a` is at least as recent. -/
def paperGE (a b : ArxivPaper) : Prop :=
  b.published ≤ a.published

instance : DecidableRel paperGE :=
  fun a b => Int.decLe b.published a.published

instance : IsTotal ArxivPaper paperGE :=
  ⟨fun a b => Int.le_total b.published a.published⟩

instance : IsTrans ArxivPaper paperGE :=
  ⟨fun _ _ _ hab hbc => le_trans hbc hab⟩

/-- `ArxivClient.search_papers` (lines 68-140 of `arxiv_search.py`) with
the call-time cutoff and the collaborator factored out as parameters:
process every topic through the shared dedup mapping, then return the
mapping's values sorted by published date, newest first. Python's
`sorted` with `reverse=True` is a stable descending sort, realized here
by the (stable) insertion sort along `paperGE`. -/
def search_papers {ε : Type} (cutoff : Int)
    (streams : String → List (Except ε RawResult))
    (topics : List String) : Except ε (List ArxivPaper) :=
  match processTopics cutoff streams topics [] with
  | Except.error e => Except.error e
  | Except.ok m => Except.ok ((m.map Prod.snd).insertionSort paperGE)

/-- `ArxivClient.search_single_topic`: delegate with a one-element list. -/
def search_single_topic {ε : Type} (cutoff : Int)
    (streams : String → List (Except ε RawResult))
    (query : String) : Except ε (List ArxivPaper) :=
  search_papers cutoff streams [query]

/-- The items of one topic's stream that the loop actually consumes and
processes: everything before the first raised error or first
below-cutoff result. -/
def consumedStream {ε : Type} (cutoff : Int) :
    List (Except ε RawResult) → List RawResult
  | [] => []
  | Except.error _ :: _ => []
  | Except.ok r :: rest =>
    if r.published < cutoff then []
    else r :: consumedStream cutoff rest

/-- The first error the loop would hit while consuming one topic's
stream, if any (errors hidden behind the cutoff break are never hit). -/
def streamError {ε : Type} (cutoff : Int) :
    List (Except ε RawResult) → Option ε
  | [] => none
  | Except.error e :: _ => some e
  | Except.ok r :: rest =>
    if r.published < cutoff then none
    else streamError cutoff rest

/-- All raw results consumed across a whole call, in topic order then
stream order. -/
def allConsumed {ε : Type} (cutoff : Int)
    (streams : String → List (Except ε RawResult))
    (topics : List String) : List RawResult :=
  topics.flatMap (fun t => consumedStream cutoff (streams t))

/-- Modelled from the spec: §4.1 step c identifier normalization as the
spec words it — take the trailing path segment of the URI, strip an
optional `abs/` path prefix if present, and strip a trailing version
suffix of the form `v<digits>`. The version-suffix stripping,
`stripVersionChars`, removes a final maximal nonempty digit run together
with the `v` immediately before it, and only then. -/
def stripVersionChars (cs : List Char) : List Char :=
  let rev := cs.reverse
  let digits := rev.takeWhile (fun c => c.isDigit)
  let rest := rev.drop digits.length
  if digits.isEmpty then cs
  else
    match rest with
    | 'v' :: rest' => rest'.reverse
    | _ => cs

/-- Modelled from the spec: the full spec-side identifier normalization
(§4.1 step c), for comparison with the code's `extract_arxiv_id`. -/
def spec_normalize_id (uri : String) : String :=
  let seg := (splitChar '/' uri.toList).getLastD []
  let seg' := if ['a', 'b', 's', '/'].isPrefixOf seg then seg.drop 4 else seg
  String.mk (stripVersionChars seg')

/-! ### Configuration (`config/config.py` and `ArxivClient.__init__`) -/

/-- The `Settings` defaults of `config/config.py` (the database URL is
out of scope). `arxiv_delay_seconds` is a Python float used only as an
opaque configuration scalar, modelled as `Rat`. -/
structure Settings where
  arxiv_max_results : Int
  arxiv_delay_seconds : Rat
  arxiv_hours_back : Int
deriving Repr, DecidableEq

/-- The process-wide `settings` instance with all defaults. -/
def settings : Settings :=
  { arxiv_max_results := 30, arxiv_delay_seconds := 3, arxiv_hours_back := 24 }

/-- Python `x or d` for `x : int | None`: `d` when `x` is `None` or the
falsy `0`, otherwise the value of `x`. -/
def pyOrInt (x : Option Int) (d : Int) : Int :=
  match x with
  | none => d
  | some v => if v = 0 then d else v

/-- Python `x or d` for `x : float | None`: `d` when `x` is `None` or the
falsy `0.0`, otherwise the value of `x`. -/
def pyOrRat (x : Option Rat) (d : Rat) : Rat :=
  match x with
  | none => d
  | some v => if v = 0 then d else v

/-- The effective configuration held by a constructed `ArxivClient`. -/
structure ArxivClientCfg where
  max_results : Int
  delay_seconds : Rat
  hours_back : Int
deriving Repr, DecidableEq

/-- `ArxivClient.__init__` (lines 48-52 of `arxiv_search.py`): each
override falls back to the settings default via Python `or`. -/
def ArxivClient_init (max_results : Option Int) (delay_seconds : Option Rat)
    (hours_back : Option Int) : ArxivClientCfg :=
  { max_results := pyOrInt max_results settings.arxiv_max_results
    delay_seconds := pyOrRat delay_seconds settings.arxiv_delay_seconds
    hours_back := pyOrInt hours_back settings.arxiv_hours_back }

/-! ### Concrete data used by the witnesses -/

/-- Fixture: recent paper, identifier `2501.0001`, newline in summary. -/
def wr1 : RawResult :=
  { entry_id := "http://arxiv.org/abs/2501.0001v2", title := "T1",
    authors := ["Alice"], summary := "line1\nline2", pdf_url := "u1",
    published := 12, categories := ["cs.AI"] }

/-- Fixture: same published instant as `wr1` (a sort tie). -/
def wr4 : RawResult :=
  { entry_id := "http://arxiv.org/abs/2504.0004v1", title := "T4",
    authors := ["Dan"], summary := "s4", pdf_url := "u4",
    published := 12, categories := [] }

/-- Fixture: paper exactly at the cutoff. -/
def wr2 : RawResult :=
  { entry_id := "http://arxiv.org/abs/2502.0002v1", title := "T2",
    authors := ["Bob"], summary := "s2", pdf_url := "u2",
    published := 10, categories := [] }

/-- Fixture: paper strictly below the cutoff. -/
def wr3 : RawResult :=
  { entry_id := "http://arxiv.org/abs/2503.0003v1", title := "T3",
    authors := [], summary := "s3", pdf_url := "u3",
    published := 5, categories := [] }

/-- Fixture: a different version of `wr1` as met from another topic —
same normalized identifier `2501.0001`, different fields. -/
def wr1b : RawResult :=
  { entry_id := "http://arxiv.org/abs/2501.0001v9", title := "DUP",
    authors := ["Eve"], summary := "dup", pdf_url := "u9",
    published := 11, categories := [] }

/-- Fixture: a fresh paper seen only from the second topic. -/
def wr5 : RawResult :=
  { entry_id := "http://arxiv.org/abs/2505.0005v1", title := "T5",
    authors := ["Fay"], summary := "s5", pdf_url := "u5",
    published := 11, categories := [] }

/-- Fixture collaborator: topic `a` ends in a below-cutoff item followed
by an error that the loop never reaches; topic `b` repeats `2501.0001`
under another version and adds `2505.0005`. -/
def wStreams : String → List (Except String RawResult) := fun t =>
  if t = "a" then
    [Except.ok wr1, Except.ok wr4, Except.ok wr2, Except.ok wr3,
     Except.error "late"]
  else if t = "b" then [Except.ok wr1b, Except.ok wr5]
  else []

/-- The output of `search_papers 10 wStreams ["a", "b"]`. -/
def wPapers : List ArxivPaper :=
  [mkArxivPaper wr1, mkArxivPaper wr4, mkArxivPaper wr5, mkArxivPaper wr2]

/-- The dedup mapping built by `processTopics 10 wStreams ["a", "b"]`. -/
def wMap : PaperMap :=
  [("2501.0001", mkArxivPaper wr1), ("2504.0004", mkArxivPaper wr4),
   ("2502.0002", mkArxivPaper wr2), ("2505.0005", mkArxivPaper wr5)]

/-- Fixture collaborator for the early-termination witness. -/
def wStreams4 : String → List (Except String RawResult) := fun _ =>
  [Except.ok wr1, Except.ok wr2, Except.ok wr3, Except.error "boom"]

/-- Fixture collaborator for the error-propagation witness: topic `err`
raises after one good result. -/
def wStreams7 : String → List (Except String RawResult) := fun t =>
  if t = "err" then [Except.ok wr1, Except.error "E"] else wStreams t

/-! ### Characterization of the per-topic loop -/

/-- A successful pass over one topic's stream folds `insertResult` over
exactly the consumed results. -/
theorem processStream_ok_eq {ε : Type} (cutoff : Int)
    (s : List (Except ε RawResult)) :
    ∀ m m' : PaperMap, processStream cutoff s m = Except.ok m' →
      m' = (consumedStream cutoff s).foldl insertResult m := by
  induction s with
  | nil =>
    intro m m' h
    simp only [processStream, Except.ok.injEq] at h
    simp [consumedStream, h]
  | cons x rest ih =>
    intro m m' h
    match x with
    | Except.error e => simp [processStream] at h
    | Except.ok r =>
      by_cases hc : r.published < cutoff
      · simp only [processStream, if_pos hc, Except.ok.injEq] at h
        simp [consumedStream, if_pos hc, h]
      · simp only [processStream, if_neg hc] at h
        simpa [consumedStream, if_neg hc] using ih _ _ h

/-- If consuming the stream hits no error, the pass succeeds. -/
theorem processStream_of_streamError_none {ε : Type} (cutoff : Int)
    (s : List (Except ε RawResult)) :
    ∀ m : PaperMap, streamError cutoff s = none →
      processStream cutoff s m =
        Except.ok ((consumedStream cutoff s).foldl insertResult m) := by
  induction s with
  | nil => intro m _; simp [processStream, consumedStream]
  | cons x rest ih =>
    intro m h
    match x with
    | Except.error e => simp [streamError] at h
    | Except.ok r =>
      by_cases hc : r.published < cutoff
      · simp [processStream, if_pos hc, consumedStream]
      · simp only [streamError, if_neg hc] at h
        simp [processStream, if_neg hc, consumedStream, ih _ h]

/-- If consuming the stream hits an error, the pass propagates exactly
that error, whatever the dedup mapping holds. -/
theorem processStream_of_streamError_some {ε : Type} (cutoff : Int)
    (s : List (Except ε RawResult)) :
    ∀ (m : PaperMap) (e : ε), streamError cutoff s = some e →
      processStream cutoff s m = Except.error e := by
  induction s with
  | nil => intro m e h; simp [streamError] at h
  | cons x rest ih =>
    intro m e h
    match x with
    | Except.error e' =>
      simp only [streamError, Option.some.injEq] at h
      simp [processStream, h]
    | Except.ok r =>
      by_cases hc : r.published < cutoff
      · simp [streamError, if_pos hc] at h
      · simp only [streamError, if_neg hc] at h
        simp [processStream, if_neg hc, ih _ _ h]

/-- A successful whole call folds `insertResult` over all consumed
results, topic order then stream order. -/
theorem processTopics_ok_eq {ε : Type} (cutoff : Int)
    (streams : String → List (Except ε RawResult)) (ts : List String) :
    ∀ m m' : PaperMap, processTopics cutoff streams ts m = Except.ok m' →
      m' = (allConsumed cutoff streams ts).foldl insertResult m := by
  induction ts with
  | nil =>
    intro m m' h
    simp only [processTopics, Except.ok.injEq] at h
    simp [allConsumed, h]
  | cons t ts ih =>
    intro m m' h
    simp only [processTopics] at h
    cases hps : processStream cutoff (streams t) m with
    | error e => rw [hps] at h; exact absurd h (by simp)
    | ok mid =>
      rw [hps] at h
      have h1 := processStream_ok_eq cutoff (streams t) m mid hps
      have h2 := ih mid m' h
      subst h1
      simpa [allConsumed, List.foldl_append] using h2

/-! ### Properties of folding `insertResult` -/

/-- `insertResult` never removes entries. -/
theorem mem_insertResult_of_mem {m : PaperMap} {kv : String × ArxivPaper}
    (r : RawResult) (h : kv ∈ m) : kv ∈ insertResult m r := by
  unfold insertResult
  by_cases hk : hasKey m (extract_arxiv_id r.entry_id)
  · simpa [hk] using h
  · simp only [hk, if_neg, Bool.false_eq_true, not_false_iff, List.mem_append]
    exact Or.inl h

/-- Folding `insertResult` never removes entries. -/
theorem mem_foldl_insertResult_of_mem (rs : List RawResult) :
    ∀ {m : PaperMap} {kv : String × ArxivPaper},
      kv ∈ m → kv ∈ rs.foldl insertResult m := by
  induction rs with
  | nil => intro m kv h; simpa using h
  | cons r rs ih =>
    intro m kv h
    exact ih (mem_insertResult_of_mem r h)

/-- Every entry of the fold is an old entry or comes from one of the
folded results, keyed by its extracted identifier. -/
theorem mem_foldl_insertResult (rs : List RawResult) :
    ∀ {m : PaperMap} {kv : String × ArxivPaper},
      kv ∈ rs.foldl insertResult m →
      kv ∈ m ∨ ∃ r ∈ rs, kv = (extract_arxiv_id r.entry_id, mkArxivPaper r) := by
  induction rs with
  | nil => intro m kv h; exact Or.inl (by simpa using h)
  | cons r rs ih =>
    intro m kv h
    rcases ih h with h' | ⟨r', hr', rfl⟩
    · unfold insertResult at h'
      by_cases hk : hasKey m (extract_arxiv_id r.entry_id)
      · exact Or.inl (by simpa [hk] using h')
      · simp only [hk, if_neg, Bool.false_eq_true, not_false_iff,
          List.mem_append, List.mem_singleton] at h'
        rcases h' with h' | h'
        · exact Or.inl h'
        · exact Or.inr ⟨r, List.mem_cons_self r rs, h'⟩
    · exact Or.inr ⟨r', List.mem_cons_of_mem r hr', rfl⟩

/-- `hasKey` is membership of the key among the first components. -/
theorem hasKey_eq_false_iff (m : PaperMap) (k : String) :
    hasKey m k = false ↔ ∀ kv ∈ m, kv.1 ≠ k := by
  simp [hasKey]

/-- Keys stay duplicate-free through `insertResult`. -/
theorem keys_nodup_insertResult {m : PaperMap} (r : RawResult)
    (h : (m.map Prod.fst).Nodup) :
    ((insertResult m r).map Prod.fst).Nodup := by
  unfold insertResult
  by_cases hk : hasKey m (extract_arxiv_id r.entry_id)
  · simpa [hk] using h
  · have hnot := (hasKey_eq_false_iff m _).mp (by simpa using hk)
    simp only [hk, if_neg, Bool.false_eq_true, not_false_iff, List.map_append,
      List.map_cons, List.map_nil, List.nodup_append]
    refine ⟨h, List.nodup_singleton _, ?_⟩
    intro a ha hb
    simp only [List.mem_singleton] at hb
    rcases List.mem_map.mp ha with ⟨kv, hkv, hkv1⟩
    exact hnot kv hkv (by rw [hkv1, hb])

/-- Keys stay duplicate-free through the whole fold. -/
theorem keys_nodup_foldl_insertResult (rs : List RawResult) :
    ∀ {m : PaperMap}, (m.map Prod.fst).Nodup →
      ((rs.foldl insertResult m).map Prod.fst).Nodup := by
  induction rs with
  | nil => intro m h; simpa using h
  | cons r rs ih => intro m h; exact ih (keys_nodup_insertResult r h)

/-- Every stored value carries its own key as `arxiv_id`. -/
theorem snd_arxiv_id_foldl_insertResult (rs : List RawResult)
    {m : PaperMap} (hm : ∀ kv ∈ m, (Prod.snd kv).arxiv_id = kv.1) :
    ∀ kv ∈ rs.foldl insertResult m, (Prod.snd kv).arxiv_id = kv.1 := by
  intro kv hkv
  rcases mem_foldl_insertResult rs hkv with h | ⟨r, _, rfl⟩
  · exact hm kv h
  · rfl

/-- Inserting a result with a different identifier cannot create key `k`. -/
theorem hasKey_insertResult_of_ne {m : PaperMap} {k : String} (r : RawResult)
    (hk : hasKey m k = false) (hne : extract_arxiv_id r.entry_id ≠ k) :
    hasKey (insertResult m r) k = false := by
  unfold insertResult
  by_cases h : hasKey m (extract_arxiv_id r.entry_id)
  · simpa [h] using hk
  · simp only [h, if_neg, Bool.false_eq_true, not_false_iff]
    rw [hasKey_eq_false_iff] at hk ⊢
    intro kv hkv
    rcases List.mem_append.mp hkv with h' | h'
    · exact hk kv h'
    · simp only [List.mem_singleton] at h'
      subst h'
      exact hne

/-- First-wins: if key `k` is absent and `r` is the first folded result
whose identifier is `k`, then the fold stores `(k, mkArxivPaper r)`. -/
theorem foldl_insertResult_first_wins (rs : List RawResult) :
    ∀ {m : PaperMap} {k : String} {r : RawResult},
      hasKey m k = false →
      rs.find? (fun r' => extract_arxiv_id r'.entry_id == k) = some r →
      (k, mkArxivPaper r) ∈ rs.foldl insertResult m := by
  induction rs with
  | nil => intro m k r _ hfind; simp at hfind
  | cons r0 rs ih =>
    intro m k r hk hfind
    by_cases h0 : extract_arxiv_id r0.entry_id = k
    · rw [List.find?_cons_of_pos _ (by simpa using h0)] at hfind
      injection hfind with hfind
      subst hfind
      have hmem : (k, mkArxivPaper r0) ∈ insertResult m r0 := by
        unfold insertResult
        rw [h0]
        simp [hk]
      exact mem_foldl_insertResult_of_mem rs hmem
    · rw [List.find?_cons_of_neg _ (by simpa using h0)] at hfind
      exact ih (hasKey_insertResult_of_ne r0 hk h0) hfind

/-- Filtering the stored values on a stored key returns exactly the one
stored record, provided keys are duplicate-free and every value carries
its key. -/
theorem filter_values_of_keys_nodup :
    ∀ (m : PaperMap) (k : String) (v : ArxivPaper),
      (m.map Prod.fst).Nodup →
      (∀ kv ∈ m, (Prod.snd kv).arxiv_id = kv.1) →
      (k, v) ∈ m →
      (m.map Prod.snd).filter (fun p => p.arxiv_id == k) = [v] := by
  intro m
  induction m with
  | nil => intro k v _ _ h; simp at h
  | cons kv0 m ih =>
    intro k v hnd hid hmem
    rw [List.map_cons] at hnd
    obtain ⟨hhead, hnd'⟩ := List.nodup_cons.mp hnd
    have hid' : ∀ kv ∈ m, (Prod.snd kv).arxiv_id = kv.1 :=
      fun kv hkv => hid kv (List.mem_cons_of_mem kv0 hkv)
    have hid0 : kv0.2.arxiv_id = kv0.1 := hid kv0 (List.mem_cons_self kv0 m)
    rcases List.mem_cons.mp hmem with h0 | h0
    · have hk0 : kv0.1 = k := by rw [← h0]
      have hv0 : kv0.2 = v := by rw [← h0]
      have hkabs : k ∉ m.map Prod.fst := hk0 ▸ hhead
      simp only [List.map_cons, List.filter_cons]
      rw [hv0] at hid0 ⊢
      have : (v.arxiv_id == k) = true := by
        rw [hid0, hk0]; simp
      rw [if_pos this]
      congr 1
      rw [List.filter_eq_nil_iff]
      intro p hp
      rcases List.mem_map.mp hp with ⟨kv, hkv, rfl⟩
      have h1 : kv.2.arxiv_id = kv.1 := hid' kv hkv
      have h2 : kv.1 ≠ k := fun hc => hkabs (hc ▸ List.mem_map_of_mem Prod.fst hkv)
      simp [h1, h2]
    · have hk0 : kv0.1 ≠ k := by
        intro hc
        have hkmem : k ∈ m.map Prod.fst := by
          have : (k, v) ∈ m := h0
          simpa using List.mem_map_of_mem Prod.fst this
        exact hhead (hc ▸ hkmem)
      simp only [List.map_cons, List.filter_cons]
      have : (kv0.2.arxiv_id == k) = false := by
        rw [hid0]; simpa using hk0
      rw [if_neg (by simp [this])]
      exact ih k v hnd' hid' h0

/-! ### Consumed results and elimination of a successful call -/

/-- Everything the loop consumes passed the cutoff test. -/
theorem le_published_of_mem_consumedStream {ε : Type} (cutoff : Int)
    (s : List (Except ε RawResult)) :
    ∀ r ∈ consumedStream cutoff s, cutoff ≤ r.published := by
  induction s with
  | nil => simp [consumedStream]
  | cons x rest ih =>
    match x with
    | Except.error e => simp [consumedStream]
    | Except.ok r0 =>
      by_cases hc : r0.published < cutoff
      · simp [consumedStream, if_pos hc]
      · intro r hr
        simp only [consumedStream, if_neg hc, List.mem_cons] at hr
        rcases hr with rfl | hr
        · exact Int.not_lt.mp hc
        · exact ih r hr

/-- Everything consumed in a whole call passed the cutoff test. -/
theorem le_published_of_mem_allConsumed {ε : Type} (cutoff : Int)
    (streams : String → List (Except ε RawResult)) (topics : List String) :
    ∀ r ∈ allConsumed cutoff streams topics, cutoff ≤ r.published := by
  intro r hr
  rcases List.mem_flatMap.mp hr with ⟨t, _, hrt⟩
  exact le_published_of_mem_consumedStream cutoff (streams t) r hrt

/-- A successful `search_papers` call is the stable descending sort of
the values of a successfully built dedup mapping. -/
theorem search_papers_ok_elim {ε : Type} (cutoff : Int)
    (streams : String → List (Except ε RawResult)) (topics : List String)
    (papers : List ArxivPaper)
    (h : search_papers cutoff streams topics = Except.ok papers) :
    ∃ m : PaperMap, processTopics cutoff streams topics [] = Except.ok m ∧
      papers = (m.map Prod.snd).insertionSort paperGE := by
  unfold search_papers at h
  cases hpt : processTopics cutoff streams topics [] with
  | error e => rw [hpt] at h; exact absurd h (by simp)
  | ok m =>
    rw [hpt] at h
    injection h with h
    exact ⟨m, rfl, h.symm⟩

/-! ### Character-level lemmas for the identifier normalization -/

/-- `takeWhile` swallows a block of satisfying elements and stops at the
first failing one. -/
theorem takeWhile_append_block {α : Type} {p : α → Bool} (l1 : List α)
    (x : α) (l2 : List α) (h1 : ∀ c ∈ l1, p c = true) (hx : p x = false) :
    (l1 ++ x :: l2).takeWhile p = l1 := by
  induction l1 with
  | nil => simp [List.takeWhile_cons, hx]
  | cons c cs ih =>
    have hc := h1 c (List.mem_cons_self c cs)
    simp [List.takeWhile_cons, hc,
      ih (fun d hd => h1 d (List.mem_cons_of_mem c hd))]

/-- The first field of a one-character split is the prefix before the
first occurrence of the separator. -/
theorem splitChar_headD (c : Char) (cs : List Char) :
    (splitChar c cs).headD [] = cs.takeWhile (fun x => x ≠ c) := by
  induction cs with
  | nil => simp [splitChar]
  | cons x xs ih =>
    by_cases hx : x = c
    · simp [splitChar, hx, List.takeWhile_cons]
    · simp only [splitChar, if_neg hx, List.headD_cons, List.takeWhile_cons]
      simp only [ne_eq, decide_not] at ih ⊢
      simp [hx]
      simpa using ih

/-- The spec-side version stripping removes a trailing `v<digits>`. -/
theorem stripVersionChars_append_version (base digits : List Char)
    (hd : digits ≠ []) (hdig : ∀ c ∈ digits, c.isDigit = true) :
    stripVersionChars (base ++ 'v' :: digits) = base := by
  have hrev : (base ++ 'v' :: digits).reverse =
      digits.reverse ++ 'v' :: base.reverse := by
    simp
  have htake : (digits.reverse ++ 'v' :: base.reverse).takeWhile
      (fun c => c.isDigit) = digits.reverse :=
    takeWhile_append_block _ _ _
      (fun c hc => hdig c (List.mem_reverse.mp hc)) rfl
  have hdrop : (digits.reverse ++ 'v' :: base.reverse).drop
      digits.reverse.length = 'v' :: base.reverse :=
    List.drop_left _ _
  have hne : digits.reverse.isEmpty = false := by
    cases hrevd : digits.reverse with
    | nil => exact absurd (by simpa using congrArg List.reverse hrevd) hd
    | cons a l => rfl
  simp only [stripVersionChars, hrev, htake, hdrop, hne]
  simp

/-- The code-side truncation at the first `v` recovers the base when the
base itself contains no `v`. -/
theorem splitChar_v_headD_append (base digits : List Char)
    (hbase : ∀ c ∈ base, c ≠ 'v') :
    (splitChar 'v' (base ++ 'v' :: digits)).headD [] = base := by
  rw [splitChar_headD]
  exact takeWhile_append_block base 'v' digits
    (fun c hc => by simpa using hbase c hc) (by simp)

/-! ### Early termination and error propagation -/

/-- Items behind the first below-cutoff result never influence the pass:
the loop breaks before reaching them. -/
theorem processStream_break_early {ε : Type} (cutoff : Int)
    (bad : RawResult) (hbad : bad.published < cutoff)
    (rest : List (Except ε RawResult)) :
    ∀ (pres : List RawResult) (m : PaperMap),
      processStream cutoff (pres.map Except.ok ++ Except.ok bad :: rest) m =
        processStream cutoff (pres.map Except.ok) m := by
  intro pres
  induction pres with
  | nil => intro m; simp [processStream, if_pos hbad]
  | cons r pres ih =>
    intro m
    by_cases hc : r.published < cutoff
    · simp [processStream, if_pos hc]
    · simp only [List.map_cons, List.cons_append, processStream, if_neg hc]
      exact ih _

/-- Two collaborators whose per-topic passes agree give equal calls. -/
theorem processTopics_congr {ε : Type} (cutoff : Int)
    (s1 s2 : String → List (Except ε RawResult)) (ts : List String)
    (h : ∀ t ∈ ts, ∀ m : PaperMap,
      processStream cutoff (s1 t) m = processStream cutoff (s2 t) m) :
    ∀ m : PaperMap,
      processTopics cutoff s1 ts m = processTopics cutoff s2 ts m := by
  induction ts with
  | nil => intro m; rfl
  | cons t ts ih =>
    intro m
    simp only [processTopics]
    rw [h t (List.mem_cons_self t ts) m]
    cases processStream cutoff (s2 t) m with
    | error e => rfl
    | ok m' => exact ih (fun t' ht' => h t' (List.mem_cons_of_mem t ht')) m'

/-- The whole call errors out at the first topic whose stream errors
while being consumed, and later topics are never reached. -/
theorem processTopics_error {ε : Type} (cutoff : Int)
    (streams : String → List (Except ε RawResult)) (t0 : String) (e : ε)
    (ts2 : List String) (h2 : streamError cutoff (streams t0) = some e) :
    ∀ (ts1 : List String) (m : PaperMap),
      (∀ t ∈ ts1, streamError cutoff (streams t) = none) →
      processTopics cutoff streams (ts1 ++ t0 :: ts2) m = Except.error e := by
  intro ts1
  induction ts1 with
  | nil =>
    intro m _
    simp only [List.nil_append, processTopics]
    rw [processStream_of_streamError_some cutoff (streams t0) m e h2]
  | cons t ts1 ih =>
    intro m h1
    simp only [List.cons_append, processTopics]
    rw [processStream_of_streamError_none cutoff (streams t) m
      (h1 t (List.mem_cons_self t ts1))]
    exact ih _ (fun t' ht' => h1 t' (List.mem_cons_of_mem t ht'))

/-! ### The claims -/

/-- C1: for every input list of topics and every collaborator result
stream, no two distinct records in a successful `search_papers` output
share the same identifier (`arxiv_id`). -/
theorem search_papers_no_duplicate_ids {ε : Type} (cutoff : Int)
    (streams : String → List (Except ε RawResult)) (topics : List String)
    (papers : List ArxivPaper)
    (h : search_papers cutoff streams topics = Except.ok papers) :
    (papers.map ArxivPaper.arxiv_id).Nodup := by
  obtain ⟨m, hm, hp⟩ := search_papers_ok_elim cutoff streams topics papers h
  subst hp
  have hmeq := processTopics_ok_eq cutoff streams topics [] m hm
  subst hmeq
  set rs := allConsumed cutoff streams topics with hrs
  have hkeys := keys_nodup_foldl_insertResult rs (m := []) (by simp)
  have hvals := snd_arxiv_id_foldl_insertResult rs (m := []) (by simp)
  have hmap : ((rs.foldl insertResult []).map Prod.snd).map ArxivPaper.arxiv_id
      = (rs.foldl insertResult []).map Prod.fst := by
    rw [List.map_map]
    exact List.map_congr_left (fun kv hkv => hvals kv hkv)
  have hperm : List.Perm
      ((((rs.foldl insertResult []).map Prod.snd).insertionSort
        paperGE).map ArxivPaper.arxiv_id)
      (((rs.foldl insertResult []).map Prod.snd).map ArxivPaper.arxiv_id) :=
    (List.perm_insertionSort paperGE _).map _
  rw [hmap] at hperm
  exact hperm.nodup_iff.mpr hkeys

/-- Witness for C1: the concrete two-topic call returns the four
expected records and their identifiers are pairwise distinct. -/
theorem search_papers_no_duplicate_ids_witness :
    search_papers 10 wStreams ["a", "b"] = Except.ok wPapers ∧
    (wPapers.map ArxivPaper.arxiv_id).Nodup :=
  ⟨by decide,
   search_papers_no_duplicate_ids 10 wStreams ["a", "b"] wPapers (by decide)⟩

/-- C2: every record a successful `search_papers` call returns has
`published` at least the cutoff computed at the start of the call. -/
theorem search_papers_recency_filter {ε : Type} (cutoff : Int)
    (streams : String → List (Except ε RawResult)) (topics : List String)
    (papers : List ArxivPaper)
    (h : search_papers cutoff streams topics = Except.ok papers) :
    ∀ p ∈ papers, cutoff ≤ p.published := by
  obtain ⟨m, hm, hpp⟩ := search_papers_ok_elim cutoff streams topics papers h
  subst hpp
  have hmeq := processTopics_ok_eq cutoff streams topics [] m hm
  subst hmeq
  intro p hp
  rw [List.mem_insertionSort] at hp
  rcases List.mem_map.mp hp with ⟨kv, hkv, rfl⟩
  rcases mem_foldl_insertResult _ hkv with h' | ⟨r, hr, rfl⟩
  · simp at h'
  · simpa [mkArxivPaper] using
      le_published_of_mem_allConsumed cutoff streams topics r hr

/-- Witness for C2 at the concrete two-topic call. -/
theorem search_papers_recency_filter_witness :
    search_papers 10 wStreams ["a", "b"] = Except.ok wPapers ∧
    ∀ p ∈ wPapers, (10 : Int) ≤ p.published :=
  ⟨by decide,
   search_papers_recency_filter 10 wStreams ["a", "b"] wPapers (by decide)⟩

/-- C3: a successful output is ordered by published timestamp in
non-increasing (newest-first) order, and records with equal published
timestamps keep the relative order in which they were first inserted
into the dedup mapping. -/
theorem search_papers_sorted_descending_stable {ε : Type} (cutoff : Int)
    (streams : String → List (Except ε RawResult)) (topics : List String)
    (m : PaperMap) (papers : List ArxivPaper)
    (hm : processTopics cutoff streams topics [] = Except.ok m)
    (h : search_papers cutoff streams topics = Except.ok papers) :
    papers.Pairwise (fun a b => b.published ≤ a.published) ∧
    ∀ a b : ArxivPaper, a.published = b.published →
      List.Sublist [a, b] (m.map Prod.snd) → List.Sublist [a, b] papers := by
  have hp : papers = (m.map Prod.snd).insertionSort paperGE := by
    unfold search_papers at h
    rw [hm] at h
    injection h with h
    exact h.symm
  subst hp
  refine ⟨List.sorted_insertionSort paperGE _, ?_⟩
  intro a b hab hsub
  exact List.pair_sublist_insertionSort (r := paperGE)
    (show paperGE a b from le_of_eq hab.symm) hsub

/-- Witness for C3: in the concrete call, `wr1` and `wr4` share the
published instant 12 and keep their insertion order in the output. -/
theorem search_papers_sorted_descending_stable_witness :
    processTopics 10 wStreams ["a", "b"] [] = Except.ok wMap ∧
    search_papers 10 wStreams ["a", "b"] = Except.ok wPapers ∧
    (wPapers.Pairwise (fun a b => b.published ≤ a.published) ∧
     ∀ a b : ArxivPaper, a.published = b.published →
       List.Sublist [a, b] (wMap.map Prod.snd) → List.Sublist [a, b] wPapers) :=
  ⟨by decide, by decide,
   search_papers_sorted_descending_stable 10 wStreams ["a", "b"] wMap wPapers
     (by decide) (by decide)⟩

/-- C4: for a topic whose stream is sorted descending by published date
and contains items both at-or-after and strictly before the cutoff, the
call includes from that stream exactly the maximal at-or-after-cutoff
prefix and consumes nothing after the first below-cutoff item: the
result equals the result obtained when that topic's stream is the
prefix alone, whatever items (or errors) lie behind the first
below-cutoff item. -/
theorem search_papers_cutoff_early_termination {ε : Type} (cutoff : Int)
    (streams : String → List (Except ε RawResult)) (topics : List String)
    (t0 : String) (pres : List RawResult) (bad : RawResult)
    (rest : List (Except ε RawResult))
    (hs : streams t0 = pres.map Except.ok ++ Except.ok bad :: rest)
    (hsorted : (pres ++ [bad]).Pairwise (fun a b => b.published ≤ a.published))
    (hne : pres ≠ [])
    (hpre : ∀ r ∈ pres, cutoff ≤ r.published)
    (hbad : bad.published < cutoff) :
    search_papers cutoff streams topics =
      search_papers cutoff
        (Function.update streams t0 (pres.map Except.ok)) topics := by
  have hpt : processTopics cutoff streams topics [] =
      processTopics cutoff
        (Function.update streams t0 (pres.map Except.ok)) topics [] := by
    apply processTopics_congr
    intro t ht m
    by_cases h : t = t0
    · subst h
      rw [Function.update_same, hs]
      exact processStream_break_early cutoff bad hbad rest pres m
    · rw [Function.update_noteq h]
  unfold search_papers
  rw [hpt]

/-- Witness for C4: with the stream `[wr1, wr2, wr3, error]`, the call
behaves exactly as with the stream `[wr1, wr2]` — the below-cutoff
`wr3` stops consumption and the error behind it is never reached. -/
theorem search_papers_cutoff_early_termination_witness :
    wStreams4 "a" =
      [wr1, wr2].map Except.ok ++ Except.ok wr3 :: [Except.error "boom"] ∧
    ([wr1, wr2] ++ [wr3]).Pairwise (fun a b => b.published ≤ a.published) ∧
    ([wr1, wr2] : List RawResult) ≠ [] ∧
    (∀ r ∈ [wr1, wr2], (10 : Int) ≤ r.published) ∧
    wr3.published < 10 ∧
    search_papers 10 wStreams4 ["a"] =
      search_papers 10
        (Function.update wStreams4 "a" ([wr1, wr2].map Except.ok)) ["a"] :=
  ⟨rfl, by decide, by decide, by decide, by decide,
   search_papers_cutoff_early_termination 10 wStreams4 ["a"] "a" [wr1, wr2]
     wr3 [Except.error "boom"] rfl (by decide) (by decide) (by decide)
     (by decide)⟩

/-- C5, counterexample: the claimed normalization rule (strip a trailing
`v<digits>` suffix) disagrees with the code on the URI
`http://arxiv.org/abs/novel1v2` — the code truncates at the FIRST `v`
and yields `"no"`, while the claimed rule yields `"novel1"`. -/
theorem extract_arxiv_id_spec_counterexample :
    extract_arxiv_id "http://arxiv.org/abs/novel1v2" = "no" ∧
    spec_normalize_id "http://arxiv.org/abs/novel1v2" = "novel1" ∧
    extract_arxiv_id "http://arxiv.org/abs/novel1v2" ≠
      spec_normalize_id "http://arxiv.org/abs/novel1v2" := by
  decide

/-- C5, amended: the identifier is the trailing path segment of the URI,
with `abs/` occurrences removed, truncated before the FIRST `v`. When
the segment is `base ++ v<digits>` with `base` free of `v`, this agrees
with stripping the trailing version suffix, and the three enumerated
example URIs all normalize to `1234.5678`. -/
theorem extract_arxiv_id_normalization_amended
    (base digits : List Char) (hbase : ∀ c ∈ base, c ≠ 'v')
    (hd : digits ≠ []) (hdig : ∀ c ∈ digits, c.isDigit = true) :
    extract_arxiv_id "http://arxiv.org/abs/1234.5678v2" = "1234.5678" ∧
    extract_arxiv_id "http://arxiv.org/abs/1234.5678" = "1234.5678" ∧
    extract_arxiv_id "http://arxiv.org/abs/1234.5678v1" = "1234.5678" ∧
    (splitChar 'v' (base ++ 'v' :: digits)).headD [] = base ∧
    stripVersionChars (base ++ 'v' :: digits) = base := by
  refine ⟨by decide, by decide, by decide, ?_, ?_⟩
  · exact splitChar_v_headD_append base digits hbase
  · exact stripVersionChars_append_version base digits hd hdig

/-- Witness for the amended C5 at the segment `1234.5678v2`. -/
theorem extract_arxiv_id_normalization_amended_witness :
    (∀ c ∈ ['1', '2', '3', '4', '.', '5', '6', '7', '8'], c ≠ 'v') ∧
    (['2'] : List Char) ≠ [] ∧
    (∀ c ∈ ['2'], Char.isDigit c = true) ∧
    (extract_arxiv_id "http://arxiv.org/abs/1234.5678v2" = "1234.5678" ∧
     extract_arxiv_id "http://arxiv.org/abs/1234.5678" = "1234.5678" ∧
     extract_arxiv_id "http://arxiv.org/abs/1234.5678v1" = "1234.5678" ∧
     (splitChar 'v' (['1', '2', '3', '4', '.', '5', '6', '7', '8'] ++
       'v' :: ['2'])).headD [] = ['1', '2', '3', '4', '.', '5', '6', '7', '8'] ∧
     stripVersionChars (['1', '2', '3', '4', '.', '5', '6', '7', '8'] ++
       'v' :: ['2']) = ['1', '2', '3', '4', '.', '5', '6', '7', '8']) :=
  ⟨by decide, by decide, by decide,
   extract_arxiv_id_normalization_amended
     ['1', '2', '3', '4', '.', '5', '6', '7', '8'] ['2']
     (by decide) (by decide) (by decide)⟩

/-- C6: when some consumed raw result normalizes to identifier `k` (in
particular when two topics' streams share one identifier), a successful
output contains exactly one record with that identifier, and its fields
are those of the first such result in topic order then stream order —
later occurrences never overwrite it. -/
theorem search_papers_cross_topic_first_wins {ε : Type} (cutoff : Int)
    (streams : String → List (Except ε RawResult)) (topics : List String)
    (papers : List ArxivPaper) (k : String) (r : RawResult)
    (h : search_papers cutoff streams topics = Except.ok papers)
    (hfind : (allConsumed cutoff streams topics).find?
      (fun r' => extract_arxiv_id r'.entry_id == k) = some r) :
    papers.filter (fun p => p.arxiv_id == k) = [mkArxivPaper r] := by
  obtain ⟨m, hm, hp⟩ := search_papers_ok_elim cutoff streams topics papers h
  subst hp
  have hmeq := processTopics_ok_eq cutoff streams topics [] m hm
  subst hmeq
  set rs := allConsumed cutoff streams topics with hrs
  have hmem : (k, mkArxivPaper r) ∈ rs.foldl insertResult [] :=
    foldl_insertResult_first_wins rs (by simp [hasKey]) hfind
  have hkeys := keys_nodup_foldl_insertResult rs (m := []) (by simp)
  have hvals := snd_arxiv_id_foldl_insertResult rs (m := []) (by simp)
  have hfilter := filter_values_of_keys_nodup (rs.foldl insertResult []) k
    (mkArxivPaper r) hkeys hvals hmem
  have hperm : List.Perm
      ((((rs.foldl insertResult []).map Prod.snd).insertionSort
        paperGE).filter (fun p => p.arxiv_id == k))
      (((rs.foldl insertResult []).map Prod.snd).filter
        (fun p => p.arxiv_id == k)) :=
    (List.perm_insertionSort paperGE _).filter _
  rw [hfilter] at hperm
  exact List.perm_singleton.mp hperm

/-- Witness for C6: topics `a` and `b` both yield `2501.0001`; the
output carries it once, with the fields of its first occurrence `wr1`. -/
theorem search_papers_cross_topic_first_wins_witness :
    search_papers 10 wStreams ["a", "b"] = Except.ok wPapers ∧
    (allConsumed 10 wStreams ["a", "b"]).find?
      (fun r' => extract_arxiv_id r'.entry_id == "2501.0001") = some wr1 ∧
    wPapers.filter (fun p => p.arxiv_id == "2501.0001") = [mkArxivPaper wr1] :=
  ⟨by decide, by decide,
   search_papers_cross_topic_first_wins 10 wStreams ["a", "b"] wPapers
     "2501.0001" wr1 (by decide) (by decide)⟩

/-- C7: a failure raised by the collaborator while producing results for
a topic propagates unchanged to the caller, no partial result is
returned, and the topics after the failing one are never processed (the
conclusion holds uniformly in the tail `ts2`). -/
theorem search_papers_error_propagation {ε : Type} (cutoff : Int)
    (streams : String → List (Except ε RawResult))
    (ts1 ts2 : List String) (t0 : String) (e : ε)
    (h1 : ∀ t ∈ ts1, streamError cutoff (streams t) = none)
    (h2 : streamError cutoff (streams t0) = some e) :
    search_papers cutoff streams (ts1 ++ t0 :: ts2) = Except.error e := by
  unfold search_papers
  rw [processTopics_error cutoff streams t0 e ts2 h2 ts1 [] h1]

/-- Witness for C7: topic `err` raises `"E"` after one result; the whole
three-topic call returns exactly that error. -/
theorem search_papers_error_propagation_witness :
    (∀ t ∈ ["a"], streamError 10 (wStreams7 t) = none) ∧
    streamError 10 (wStreams7 "err") = some "E" ∧
    search_papers 10 wStreams7 (["a"] ++ "err" :: ["b"]) = Except.error "E" :=
  ⟨by decide, by decide,
   search_papers_error_propagation 10 wStreams7 ["a"] ["b"] "err" "E"
     (by decide) (by decide)⟩

/-- C8: the empty topic list yields a successful empty output — no
error — and, the equation holding for every collaborator `streams`,
nothing of any collaborator is consulted or consumed. -/
theorem search_papers_empty_topics {ε : Type} (cutoff : Int)
    (streams : String → List (Except ε RawResult)) :
    search_papers cutoff streams [] = Except.ok [] ∧
    allConsumed cutoff streams [] = [] :=
  ⟨rfl, rfl⟩

/-- C9: every record of a successful output is built from some consumed
raw result, its abstract being the raw summary with every newline
replaced by a single space and every other copied field unchanged. -/
theorem search_papers_field_normalization {ε : Type} (cutoff : Int)
    (streams : String → List (Except ε RawResult)) (topics : List String)
    (papers : List ArxivPaper) (p : ArxivPaper)
    (h : search_papers cutoff streams topics = Except.ok papers)
    (hp : p ∈ papers) :
    ∃ r ∈ allConsumed cutoff streams topics,
      p.title = r.title ∧ p.authors = r.authors ∧
      p.abstract = normalizeSummary r.summary ∧
      p.pdf_url = r.pdf_url ∧ p.published = r.published ∧
      p.categories = r.categories := by
  obtain ⟨m, hm, hpp⟩ := search_papers_ok_elim cutoff streams topics papers h
  subst hpp
  have hmeq := processTopics_ok_eq cutoff streams topics [] m hm
  subst hmeq
  rw [List.mem_insertionSort] at hp
  rcases List.mem_map.mp hp with ⟨kv, hkv, rfl⟩
  rcases mem_foldl_insertResult _ hkv with h' | ⟨r, hr, rfl⟩
  · simp at h'
  · exact ⟨r, hr, rfl, rfl, rfl, rfl, rfl, rfl⟩

/-- Witness for C9: the output record for `wr1` carries the summary
`"line1\nline2"` as `"line1 line2"` and all other fields verbatim. -/
theorem search_papers_field_normalization_witness :
    search_papers 10 wStreams ["a", "b"] = Except.ok wPapers ∧
    mkArxivPaper wr1 ∈ wPapers ∧
    ∃ r ∈ allConsumed 10 wStreams ["a", "b"],
      (mkArxivPaper wr1).title = r.title ∧
      (mkArxivPaper wr1).authors = r.authors ∧
      (mkArxivPaper wr1).abstract = normalizeSummary r.summary ∧
      (mkArxivPaper wr1).pdf_url = r.pdf_url ∧
      (mkArxivPaper wr1).published = r.published ∧
      (mkArxivPaper wr1).categories = r.categories :=
  ⟨by decide, by decide,
   search_papers_field_normalization 10 wStreams ["a", "b"] wPapers
     (mkArxivPaper wr1) (by decide) (by decide)⟩

/-- C10: in the constructor, a falsy override (0 for `max_results` or
`hours_back`, 0.0 for `delay_seconds`) behaves exactly as an omitted
(`None`) argument, and the omitted configuration is the process-wide
default `(30, 3.0, 24)`. -/
theorem arxiv_client_falsy_override_defaults :
    ArxivClient_init (some 0) (some 0) (some 0) =
      ArxivClient_init none none none ∧
    ArxivClient_init (some 0) none none = ArxivClient_init none none none ∧
    ArxivClient_init none (some 0) none = ArxivClient_init none none none ∧
    ArxivClient_init none none (some 0) = ArxivClient_init none none none ∧
    ArxivClient_init none none none =
      { max_results := 30, delay_seconds := 3, hours_back := 24 } := by
  refine ⟨?_, ?_, ?_, ?_, ?_⟩ <;> rfl
